import Mathlib

/-!
Shallow embedding of the Leash relay server (TypeScript sources under
`src/server/src` and the hook-integrated variants in `src/unnamed`):
the transcript watcher (`transcript-watcher.ts`), the hooks-based
`AgentManager` (`src/unnamed/part_007`), the Express routes
(`src/unnamed/part_008`) and the WebSocket fan-out handler
(`src/unnamed/part_015`).  JavaScript `Map`s are modelled as
insertion-ordered association lists, `Set`s as duplicate-free lists,
and the event-emitter side effects as explicitly returned event lists.
-/

namespace Leash

/-! ## Association-list model of a JavaScript `Map` (insertion ordered) -/

/-- Model of `Map.get`: the value stored at the first (unique) matching key. -/
def mapGet {κ α : Type} [DecidableEq κ] : List (κ × α) → κ → Option α
  | [], _ => none
  | (k', v) :: rest, k => if k' = k then some v else mapGet rest k

/-- Model of `Map.set`: replace the value in place if the key exists,
otherwise append the new binding (JS `Map` iterates in insertion order). -/
def mapSet {κ α : Type} [DecidableEq κ] : List (κ × α) → κ → α → List (κ × α)
  | [], k, v => [(k, v)]
  | (k', v') :: rest, k, v =>
    if k' = k then (k, v) :: rest else (k', v') :: mapSet rest k v

/-- Model of `Map.delete`: drop every binding for the key. -/
def mapDelete {κ α : Type} [DecidableEq κ] : List (κ × α) → κ → List (κ × α)
  | [], _ => []
  | (k', v') :: rest, k =>
    if k' = k then mapDelete rest k else (k', v') :: mapDelete rest k

/-! ## Transcript watcher (`src/server/src/transcript-watcher.ts`)

A line of the JSONL log is modelled after `JSON.parse` has run: `none`
stands for a malformed line (where `JSON.parse` throws and the line is
skipped), `some entry` for a successfully parsed record. -/

/-- One block of a structured `message.content` array
(`{ type; text?; name?; input? }`); `input` is modelled as the string-valued
fields of the tool-input record, looked up by key. -/
structure Block where
  type : String
  text : Option String := none
  name : Option String := none
  input : Option (List (String × String)) := none
deriving DecidableEq

/-- Content of a record's `message.content`: either a plain string
(user records) or an array of blocks (assistant records). -/
inductive MsgContent where
  | str (s : String)
  | arr (blocks : List Block)
deriving DecidableEq

/-- The `message` field of a JSONL record (`{ role; content }`). -/
structure EntryMessage where
  role : String
  content : MsgContent
deriving DecidableEq

/-- A parsed JSONL record (`JsonlEntry` in `transcript-watcher.ts`). -/
structure JsonlEntry where
  type : String
  uuid : String
  timestamp : String
  message : Option EntryMessage := none
deriving DecidableEq

/-- Model of `input.key as string || ''`: the value stored under `key`,
or the empty string when absent. -/
def getStr (input : List (String × String)) (key : String) : String :=
  match mapGet input key with
  | some v => v
  | none => ""

/-- Model of `filePath.split(/[/\\]/).pop() || filePath`. -/
def lastPathComponent (filePath : String) : String :=
  let parts := filePath.split (fun c => c == '/' || c == '\\')
  match parts.getLast? with
  | some s => if s = "" then filePath else s
  | none => filePath

/-- Model of `TranscriptWatcher.formatToolUse`: renders a `tool_use` block
into readable content, with a per-tool formatting rule table. -/
def formatToolUse (toolName : String) (input : Option (List (String × String))) : String :=
  match input with
  | none => "🔧 " ++ toolName
  | some input =>
    match toolName with
    | "Edit" =>
      let filePath := getStr input "file_path"
      let fileName := lastPathComponent filePath
      let oldStr := getStr input "old_string"
      let newStr := getStr input "new_string"
      let diffContent := "📝 Edit: " ++ fileName ++ "\n"
      if oldStr ≠ "" ∧ newStr ≠ "" then
        let oldLines := String.intercalate "\n" ((oldStr.splitOn "\n").map (fun l => "- " ++ l))
        let newLines := String.intercalate "\n" ((newStr.splitOn "\n").map (fun l => "+ " ++ l))
        diffContent ++ "\n" ++ oldLines ++ "\n" ++ newLines
      else diffContent
    | "Write" =>
      let filePath := getStr input "file_path"
      let fileName := lastPathComponent filePath
      let content := getStr input "content"
      let preview := if content.length > 500 then content.take 500 ++ "..." else content
      "📄 Write: " ++ fileName ++ "\n\n" ++ preview
    | "Read" =>
      let filePath := getStr input "file_path"
      let fileName := lastPathComponent filePath
      "📖 Read: " ++ fileName
    | "Bash" =>
      let command := getStr input "command"
      let desc := getStr input "description"
      "💻 Bash: " ++ (if desc = "" then command else desc)
    | "Grep" =>
      let pattern := getStr input "pattern"
      let path := let p := getStr input "path"; if p = "" then "." else p
      "🔍 Grep: \"" ++ pattern ++ "\" in " ++ path
    | "Glob" =>
      let pattern := getStr input "pattern"
      "📂 Glob: " ++ pattern
    | "WebFetch" =>
      let url := getStr input "url"
      "🌐 WebFetch: " ++ url
    | "WebSearch" =>
      let query := getStr input "query"
      "🔎 WebSearch: " ++ query
    | "TodoWrite" => "📋 TodoWrite"
    | _ => "🔧 " ++ toolName

/-- Recorded tool usage of a message (`TranscriptMessage.toolUse`). -/
structure ToolUse where
  name : String
  input : Option (List (String × String)) := none
deriving DecidableEq

/-- A structured chat turn parsed from the transcript
(`TranscriptMessage` in `transcript-watcher.ts`). -/
structure TranscriptMessage where
  role : String
  content : String
  timestamp : String
  uuid : String
  toolUse : Option ToolUse := none
deriving DecidableEq

/-- Model of the block loop in `TranscriptWatcher.parseMessage`: collects
the text blocks (in order, truthy only) and the last `tool_use` block.
A `tool_use` block also contributes its rendered form to the text blocks. -/
def processBlocks (blocks : List Block) : List String × Option ToolUse :=
  blocks.foldl
    (fun (acc : List String × Option ToolUse) b =>
      if b.type = "text" then
        match b.text with
        | some t => if t ≠ "" then (acc.1 ++ [t], acc.2) else acc
        | none => acc
      else if b.type = "tool_use" then
        match b.name with
        | some n =>
          if n ≠ "" then
            let toolContent := formatToolUse n b.input
            ((if toolContent ≠ "" then acc.1 ++ [toolContent] else acc.1), some ⟨n, b.input⟩)
          else acc
        | none => acc
      else acc)
    ([], none)

/-- Model of `TranscriptWatcher.parseMessage`: parses a record into
zero-or-one message; empty messages (no content and no tool use) give `none`. -/
def parseMessage (entry : JsonlEntry) : Option TranscriptMessage :=
  match entry.message with
  | none => none
  | some msg =>
    let parsed : String × Option ToolUse :=
      match msg.content with
      | .str s => (s, none)
      | .arr blocks =>
        let (texts, tu) := processBlocks blocks
        (String.intercalate "\n\n" texts, tu)
    if parsed.1 = "" ∧ parsed.2 = none then none
    else
      some { role := entry.type
             content := if parsed.1 = "" then
                 "[" ++ (match parsed.2 with | some tu => tu.name | none => "") ++ "]"
               else parsed.1
             timestamp := entry.timestamp
             uuid := entry.uuid
             toolUse := parsed.2 }

/-- Mutable state of one `TranscriptWatcher` instance:
`lastLineCount` and the monotone `seenUuids` set. -/
structure WatcherState where
  lastLineCount : Nat := 0
  seenUuids : List String := []
deriving DecidableEq

/-- Model of `TranscriptWatcher.processEntry`: skip records whose uuid was
already seen, record the uuid, skip non-message record types, and emit the
parse result (if any). -/
def processEntry (st : WatcherState) (entry : JsonlEntry) :
    WatcherState × Option TranscriptMessage :=
  if entry.uuid ∈ st.seenUuids then (st, none)
  else
    let st := { st with seenUuids := st.seenUuids ++ [entry.uuid] }
    if entry.type ≠ "user" ∧ entry.type ≠ "assistant" then (st, none)
    else (st, parseMessage entry)

/-- The record-processing loop of `TranscriptWatcher.readNewEntries`,
over the given slice of lines: malformed lines (`none`) are skipped,
well-formed records go through `processEntry`, emissions accumulate in order. -/
def processLines (st : WatcherState) : List (Option JsonlEntry) →
    WatcherState × List TranscriptMessage
  | [] => (st, [])
  | line :: rest =>
    let step : WatcherState × Option TranscriptMessage :=
      match line with
      | none => (st, none)
      | some entry => processEntry st entry
    let next := processLines step.1 rest
    (next.1, step.2.toList ++ next.2)

/-- Model of `TranscriptWatcher.readNewEntries` (one `pollOnce`): the full
current content is read, but only the lines at index `≥ lastLineCount` are
processed; afterwards `lastLineCount` is set to the current line count. -/
def readNewEntries (st : WatcherState) (lines : List (Option JsonlEntry)) :
    WatcherState × List TranscriptMessage :=
  let next := processLines st (lines.drop st.lastLineCount)
  ({ next.1 with lastLineCount := lines.length }, next.2)

/-- Polling a fixed transcript `n` times, concatenating all emissions. -/
def pollMany (st : WatcherState) (lines : List (Option JsonlEntry)) :
    Nat → WatcherState × List TranscriptMessage
  | 0 => (st, [])
  | n + 1 =>
    let first := readNewEntries st lines
    let rest := pollMany first.1 lines n
    (rest.1, first.2 ++ rest.2)

/-- Polling a (possibly changing) sequence of log contents, concatenating
all emissions: the lifetime of one watcher instance. -/
def pollSequence (st : WatcherState) :
    List (List (Option JsonlEntry)) → WatcherState × List TranscriptMessage
  | [] => (st, [])
  | c :: cs =>
    let first := readNewEntries st c
    let rest := pollSequence first.1 cs
    (rest.1, first.2 ++ rest.2)

/-- The application-level identities of the well-formed records of a log. -/
def uuidsOf (lines : List (Option JsonlEntry)) : List String :=
  (lines.filterMap id).map JsonlEntry.uuid

/-- Model of `TranscriptWatcher.getAllMessages`: the same parse over the
full log without the "only new" filter (initial load / history replay). -/
def getAllMessages : List (Option JsonlEntry) → List TranscriptMessage
  | [] => []
  | line :: rest =>
    (match line with
     | none => []
     | some entry =>
       if entry.type = "user" ∨ entry.type = "assistant" then
         (parseMessage entry).toList
       else []) ++ getAllMessages rest

/-! ## Agent registry (`AgentManager`, `src/unnamed/part_007`) -/

/-- Agent kind (`'claude-code' | 'copilot' | 'antigravity'`). -/
inductive AgentType where
  | claudeCode
  | copilot
  | antigravity
deriving DecidableEq

/-- Agent status (`'active' | 'idle' | 'disconnected'`). -/
inductive AgentStatus where
  | active
  | idle
  | disconnected
deriving DecidableEq

/-- A monitored agent session (the `Agent` interface of `types/index.ts`). -/
structure Agent where
  id : String
  name : String
  type : AgentType
  status : AgentStatus
  connectedAt : Nat
  pid : Option Nat := none
  isWsl : Bool := false
  transcriptPath : Option String := none
deriving DecidableEq

/-- Model of JavaScript truthiness of an optional string:
`undefined` and the empty string are falsy. -/
def optTruthy : Option String → Bool
  | some s => s ≠ ""
  | none => false

/-- Substring occurrence over character lists (structurally recursive, so
that it evaluates inside the kernel). -/
def containsSub (pat : List Char) : List Char → Bool
  | [] => pat.isEmpty
  | c :: cs => pat.isPrefixOf (c :: cs) || containsSub pat cs

/-- Model of `s.includes(pat)`. -/
def strContains (s pat : String) : Bool := containsSub pat.data s.data

/-- The `AgentManager`'s mutable state: the agent table, the per-agent
activity rings, and the set of agent ids with a running transcript watcher. -/
structure ManagerState where
  agents : List (String × Agent) := []
  activityHistory : List (String × List String) := []
  transcriptWatchers : List String := []
deriving DecidableEq

/-- Events emitted by the manager (the `EventEmitter` side channel). -/
inductive ManagerEvent where
  | agentConnected (agent : Agent)
  | agentDisconnected (agentId : String)
  | activity (agentId content : String)
deriving DecidableEq

/-- Kind inference from the agent-id prefix heuristic
(the `else` branch of `getOrCreateHooksAgent`). -/
def inferKindFromId (agentId : String) : AgentType × String :=
  let lowerAgentId := agentId.toLower
  if lowerAgentId.startsWith "antigravity" then (.antigravity, "Antigravity")
  else if lowerAgentId.startsWith "copilot" then (.copilot, "Copilot")
  else (.claudeCode, "Claude Code")

/-- Kind inference of `getOrCreateHooksAgent`: an explicit (truthy) `source`
wins, an unrecognized source keeps the initialized default, otherwise the
id-prefix heuristic applies. -/
def inferAgentKind (agentId : String) (source : Option String) : AgentType × String :=
  match source with
  | some src =>
    if src = "" then inferKindFromId agentId
    else if src = "antigravity" then (.antigravity, "Antigravity")
    else if src = "copilot" then (.copilot, "Copilot")
    else if src = "claude-code" ∨ src = "claude" then (.claudeCode, "Claude Code")
    else (.claudeCode, "Claude Code")
  | none => inferKindFromId agentId

/-- Model of `AgentManager.startTranscriptWatcher`: a no-op when a watcher
for the agent already runs, otherwise registers one. -/
def startTranscriptWatcher (s : ManagerState) (agentId : String) : ManagerState :=
  if agentId ∈ s.transcriptWatchers then s
  else { s with transcriptWatchers := s.transcriptWatchers ++ [agentId] }

/-- Model of `AgentManager.getOrCreateHooksAgent` (part_007:86-145): returns
the agent, the updated state, and the emitted events.  Unknown id: construct
the agent (kind from source else id prefix), register it with an empty
activity history, emit `agent_connected`, and start a transcript watcher if
a (truthy) transcript path was supplied.  Known id: return the stored agent;
if a truthy path arrives for an agent that had none, attach it and start the
watcher retroactively. -/
def getOrCreateHooksAgent (s : ManagerState) (agentId : String)
    (transcriptPath : Option String) (source : Option String) (now : Nat) :
    Agent × ManagerState × List ManagerEvent :=
  match mapGet s.agents agentId with
  | none =>
    let isWsl := strContains agentId "wsl"
    let location := if isWsl then " (WSL)" else ""
    let inferred := inferAgentKind agentId source
    let agent : Agent :=
      { id := agentId
        name := inferred.2 ++ location
        type := inferred.1
        status := .active
        connectedAt := now
        isWsl := isWsl
        transcriptPath := transcriptPath }
    let s1 := { s with agents := mapSet s.agents agentId agent
                       activityHistory := mapSet s.activityHistory agentId [] }
    let s2 := if optTruthy transcriptPath then startTranscriptWatcher s1 agentId else s1
    (agent, s2, [.agentConnected agent])
  | some agent =>
    if optTruthy transcriptPath ∧ ¬ optTruthy agent.transcriptPath then
      let agent' := { agent with transcriptPath := transcriptPath }
      let s1 := { s with agents := mapSet s.agents agentId agent' }
      (agent', startTranscriptWatcher s1 agentId, [])
    else (agent, s, [])

/-- Model of `AgentManager.recordActivity` (part_007:195-203): append to the
(possibly absent) history, keep the last 100 entries, store the result.
There is no registration check for `agentId`. -/
def recordActivity (s : ManagerState) (agentId content : String) : ManagerState :=
  let history := (mapGet s.activityHistory agentId).getD []
  let history := history ++ [content]
  let history := if history.length > 100 then history.tail else history
  { s with activityHistory := mapSet s.activityHistory agentId history }

/-- Model of `AgentManager.getActivityHistory` (part_007:208-210). -/
def getActivityHistory (s : ManagerState) (agentId : String) : List String :=
  (mapGet s.activityHistory agentId).getD []

/-- Model of `AgentManager.getAgents`: the agent table's values in order. -/
def getAgents (s : ManagerState) : List Agent := s.agents.map Prod.snd

/-! ## REST routes (`createRoutes`, `src/unnamed/part_008`) -/

/-- A chat-message timestamp: `iso ms` models `new Date(ms).toISOString()`
(the calendar rendering is kept abstract as the millisecond value), `raw s`
is the timestamp string copied from a transcript record. -/
inductive Timestamp where
  | iso (ms : Int)
  | raw (s : String)
deriving DecidableEq

/-- A chat message of the REST chat responses (`ChatMessage` in
`types/index.ts`, without the optional uuid, which neither route sets). -/
structure RouteChatMessage where
  role : String
  content : String
  timestamp : Timestamp
deriving DecidableEq

/-- Response of a chat route: 404, or a JSON body with a message list and
an optional error string. -/
inductive ChatResponse where
  | notFound
  | ok (messages : List RouteChatMessage) (error : Option String)
deriving DecidableEq

/-- Approximation of `JSON.stringify` over one modelled content block
(the string-valued fields that the model retains; escaping elided). -/
def jsonStringifyBlock (b : Block) : String :=
  "\x7b\"type\":\"" ++ b.type ++ "\"" ++
    (match b.text with
     | some t => ",\"text\":\"" ++ t ++ "\""
     | none => "") ++
    (match b.name with
     | some n => ",\"name\":\"" ++ n ++ "\""
     | none => "") ++ "\x7d"

/-- Approximation of `JSON.stringify` over a block array. -/
def jsonStringifyBlocks (bs : List Block) : String :=
  "[" ++ String.intercalate "," (bs.map jsonStringifyBlock) ++ "]"

/-- Model of one line of `readTranscript` (part_008:41-76): a user record
with truthy content yields its string content (or the stringified array); an
assistant record yields the concatenation of its text-block texts when
non-empty.  An assistant record whose content is a string raises a
`TypeError` on `.filter` that the surrounding catch swallows (line skipped). -/
def readTranscriptEntry (entry : JsonlEntry) : List RouteChatMessage :=
  match entry.message with
  | none => []
  | some m =>
    if entry.type = "user" then
      match m.content with
      | .str s => if s = "" then [] else [⟨"user", s, .raw entry.timestamp⟩]
      | .arr bs => [⟨"user", jsonStringifyBlocks bs, .raw entry.timestamp⟩]
    else if entry.type = "assistant" then
      match m.content with
      | .str _ => []
      | .arr bs =>
        let textContent :=
          String.join ((bs.filter (fun b => b.type = "text")).map (fun b => b.text.getD ""))
        if textContent = "" then [] else [⟨"assistant", textContent, .raw entry.timestamp⟩]
    else []

/-- Model of `readTranscript` (part_008:24-82) applied to the parsed lines
of the transcript file: malformed lines are skipped. -/
def readTranscript : List (Option JsonlEntry) → List RouteChatMessage
  | [] => []
  | line :: rest =>
    (match line with
     | none => []
     | some e => readTranscriptEntry e) ++ readTranscript rest

/-- Model of the FIRST `GET /agents/:id/chat` handler (part_008:123-138):
derives pseudo chat messages from the agent's activity history, guessing the
role from whether the content contains `User:` and synthesizing timestamps
backwards from `Date.now()`. -/
def activityChatHandler (s : ManagerState) (agentId : String) (now : Int) : ChatResponse :=
  match mapGet s.agents agentId with
  | none => .notFound
  | some _ =>
    let activity := getActivityHistory s agentId
    .ok (activity.enum.map (fun p =>
      { role := if strContains p.2 "User:" then "user" else "assistant"
        content := p.2
        timestamp := .iso (now - ((activity.length : Int) - (p.1 : Int)) * 1000) })) none

/-- Model of the SECOND `GET /agents/:id/chat` handler (part_008:200-219):
the full transcript replay via `readTranscript`; `fileLines` stands for the
parsed content of the file at the agent's transcript path. -/
def transcriptChatHandler (s : ManagerState) (agentId : String)
    (fileLines : List (Option JsonlEntry)) : ChatResponse :=
  match mapGet s.agents agentId with
  | none => .notFound
  | some agent =>
    if optTruthy agent.transcriptPath then .ok (readTranscript fileLines) none
    else .ok [] (some "No transcript available")

/-- The handlers of `createRoutes`, tagged for the dispatch table. -/
inductive RouteTag where
  | agentsList
  | agentDetail
  | activityChat
  | health
  | hooks
  | transcriptChat
  | send
  | queueGet
  | queuePeek
  | interruptAgent
deriving DecidableEq

/-- The Express router's registration list (part_008, in source order):
method, path pattern, handler tag. -/
def routeTable : List (String × String × RouteTag) :=
  [("GET", "/agents", .agentsList),
   ("GET", "/agents/:id", .agentDetail),
   ("GET", "/agents/:id/chat", .activityChat),
   ("GET", "/health", .health),
   ("POST", "/hooks", .hooks),
   ("GET", "/agents/:id/chat", .transcriptChat),
   ("POST", "/agents/:id/send", .send),
   ("GET", "/agents/:id/queue", .queueGet),
   ("GET", "/agents/:id/queue/peek", .queuePeek),
   ("POST", "/agents/:id/interrupt", .interruptAgent)]

/-- Express dispatch: the first route registered for the method and path
handles the request (a handler that never calls `next()` shadows all later
routes with the same path). -/
def dispatch (method path : String) : Option RouteTag :=
  (routeTable.find? (fun r => r.1 = method ∧ r.2.1 = path)).map (fun r => r.2.2)

/-! ## Outbound message queue (part_008: `messageQueues`, send and queue routes) -/

/-- The module-level `messageQueues` map: per-agent FIFO of pending texts. -/
abbrev Queues := List (String × List String)

/-- Result of `POST /agents/:id/send` in queue mode. -/
inductive SendResult where
  | notFound
  | badRequest
  | queued (queueSize : Nat)
deriving DecidableEq

/-- Outcome of the send route: updated manager, updated queues, HTTP result,
emitted events. -/
structure SendOutcome where
  manager : ManagerState
  queues : Queues
  result : SendResult
  events : List ManagerEvent
deriving DecidableEq

/-- The queued-activity line logged by the send route. -/
def queuedActivityMessage (queueSize : Nat) (message : String) : String :=
  "📨 Message queued (" ++ toString queueSize ++ " in queue): \"" ++
    (message.take 50) ++ (if message.length > 50 then "..." else "") ++ "\""

/-- Model of `POST /agents/:id/send` with `instant = false` (part_008:225-298,
queue-mode path): 404 for an unknown agent, 400 for an empty message,
otherwise append to the agent's FIFO, record and emit an activity line, and
reply with the new queue length. -/
def postSendQueueMode (s : ManagerState) (queues : Queues)
    (agentId message : String) : SendOutcome :=
  match mapGet s.agents agentId with
  | none => ⟨s, queues, .notFound, []⟩
  | some agent =>
    if message = "" then ⟨s, queues, .badRequest, []⟩
    else
      let q := (mapGet queues agent.id).getD []
      let q := q ++ [message]
      let queues := mapSet queues agent.id q
      let activityMessage := queuedActivityMessage q.length message
      ⟨recordActivity s agent.id activityMessage, queues,
        .queued q.length, [.activity agent.id activityMessage]⟩

/-- Reply of `GET /agents/:id/queue`. -/
structure DequeueReply where
  hasMessage : Bool
  message : Option String
  remainingCount : Nat
deriving DecidableEq

/-- Model of `GET /agents/:id/queue` (part_008:301-313): pop and return the
oldest pending message, or report empty. -/
def getQueueRoute (queues : Queues) (agentId : String) : Queues × DequeueReply :=
  let q := (mapGet queues agentId).getD []
  match q with
  | [] => (queues, ⟨false, none, 0⟩)
  | m :: rest => (mapSet queues agentId rest, ⟨true, some m, rest.length⟩)

/-- Model of `GET /agents/:id/queue/peek` (part_008:316-320). -/
def peekQueueRoute (queues : Queues) (agentId : String) : Nat × List String :=
  let q := (mapGet queues agentId).getD []
  (q.length, q)

/-! ## WebSocket fan-out handler (`WebSocketHandler`, `src/unnamed/part_015`) -/

/-- A connected client socket, identified abstractly. -/
abbrev ClientId := Nat

/-- The handler's mutable state: connected clients, per-client interest
sets, and the relay's own bounded replay buffers (`activityHistory` holds
`(content, timestamp)` pairs). -/
structure WSState where
  clients : List ClientId := []
  subscriptions : List (ClientId × List String) := []
  activityHistory : List (String × List (String × Nat)) := []
  chatHistory : List (String × List TranscriptMessage) := []
deriving DecidableEq

/-- A server-to-client frame (`ServerMessage` plus `ChatMessageEvent`). -/
inductive Frame where
  | agentsList (agents : List Agent)
  | agentConnected (agent : Agent)
  | agentDisconnected (agentId : String)
  | activity (agentId content : String) (timestamp : Nat)
  | statusChange (agentId : String) (status : AgentStatus)
  | chatMessage (agentId role content timestamp uuid : String)
deriving DecidableEq

/-- Model of `WebSocketHandler.broadcast`: send the frame to every
connected client, ignoring subscriptions. -/
def broadcast (s : WSState) (f : Frame) : List (ClientId × Frame) :=
  s.clients.map (fun c => (c, f))

/-- The push-then-shift idiom used for both bounded buffers:
`history.push(x); if (history.length > cap) history.shift()`. -/
def cappedPush {α : Type} (l : List α) (x : α) (cap : Nat) : List α :=
  if (l ++ [x]).length > cap then (l ++ [x]).tail else l ++ [x]

/-- The handler's `MAX_HISTORY` constant. -/
def MAX_HISTORY : Nat := 50

/-- The handler's `MAX_CHAT_HISTORY` constant. -/
def MAX_CHAT_HISTORY : Nat := 200

/-- Handler of the manager's `agent_connected` event: broadcast only. -/
def onAgentConnected (s : WSState) (agent : Agent) : WSState × List (ClientId × Frame) :=
  (s, broadcast s (.agentConnected agent))

/-- Handler of `agent_disconnected` (part_015:29-32): broadcast, then purge
that agent's activity history; the chat history is NOT touched. -/
def onAgentDisconnected (s : WSState) (agentId : String) :
    WSState × List (ClientId × Frame) :=
  ({ s with activityHistory := mapDelete s.activityHistory agentId },
   broadcast s (.agentDisconnected agentId))

/-- Handler of `activity` (part_015:34-53): append to the bounded history
(cap `MAX_HISTORY`), then broadcast the frame. -/
def onActivity (s : WSState) (agentId content : String) (now : Nat) :
    WSState × List (ClientId × Frame) :=
  let history := (mapGet s.activityHistory agentId).getD []
  let history := cappedPush history (content, now) MAX_HISTORY
  let s := { s with activityHistory := mapSet s.activityHistory agentId history }
  (s, broadcast s (.activity agentId content now))

/-- Handler of `status_change`: broadcast only. -/
def onStatusChange (s : WSState) (agentId : String) (status : AgentStatus) :
    WSState × List (ClientId × Frame) :=
  (s, broadcast s (.statusChange agentId status))

/-- The `chat_message` frame built from a transcript message
(role, content, timestamp, uuid; `toolUse` is not forwarded). -/
def chatFrame (agentId : String) (m : TranscriptMessage) : Frame :=
  .chatMessage agentId m.role m.content m.timestamp m.uuid

/-- Handler of `chat_message` (part_015:60-85): append to the bounded chat
history (cap `MAX_CHAT_HISTORY`), then broadcast the frame. -/
def onChatMessage (s : WSState) (agentId : String) (m : TranscriptMessage) :
    WSState × List (ClientId × Frame) :=
  let history := (mapGet s.chatHistory agentId).getD []
  let history := cappedPush history m MAX_CHAT_HISTORY
  let s := { s with chatHistory := mapSet s.chatHistory agentId history }
  (s, broadcast s (chatFrame agentId m))

/-- The activity-replay frames of `onConnection`: every stored agent in map
order, each agent's entries in stored (chronological) order. -/
def activityFrames (s : WSState) : List Frame :=
  (s.activityHistory.map (fun e => e.2.map (fun p => Frame.activity e.1 p.1 p.2))).flatten

/-- The chat-replay frames of `onConnection`, likewise. -/
def chatFrames (s : WSState) : List Frame :=
  (s.chatHistory.map (fun e => e.2.map (fun m => chatFrame e.1 m))).flatten

/-- Model of `WebSocketHandler.onConnection` (part_015:94-135): register the
client with an empty interest set and send, in order: the full agent list,
the activity replay for all agents, the chat replay for all agents. -/
def onConnection (s : WSState) (ws : ClientId) (mgr : ManagerState) :
    WSState × List Frame :=
  let s := { s with clients := if ws ∈ s.clients then s.clients else s.clients ++ [ws]
                    subscriptions := mapSet s.subscriptions ws [] }
  (s, Frame.agentsList (getAgents mgr) :: (activityFrames s ++ chatFrames s))

/-- A client-to-server command (`ClientMessage` in `types/index.ts`). -/
inductive ClientMessage where
  | subscribe (agentId : String)
  | unsubscribe (agentId : String)
  | listAgents
  | sendMessage (agentId message : String) (instant : Bool)
  | interruptCmd (agentId : String)
deriving DecidableEq

/-- Model of `WebSocketHandler.handleMessage` (part_015:157-172): subscribe
and unsubscribe mutate only the connection's interest set and send nothing;
`list_agents` replies to the requester only; the remaining commands have no
case in this handler's switch and fall through. -/
def handleMessage (s : WSState) (mgr : ManagerState) (ws : ClientId)
    (msg : ClientMessage) : WSState × List (ClientId × Frame) :=
  match msg with
  | .subscribe agentId =>
    (match mapGet s.subscriptions ws with
     | none => (s, [])
     | some interest =>
       let interest := if agentId ∈ interest then interest else interest ++ [agentId]
       ({ s with subscriptions := mapSet s.subscriptions ws interest }, []))
  | .unsubscribe agentId =>
    (match mapGet s.subscriptions ws with
     | none => (s, [])
     | some interest =>
       let interest := interest.filter (fun a => a ≠ agentId)
       ({ s with subscriptions := mapSet s.subscriptions ws interest }, []))
  | .listAgents => (s, [(ws, .agentsList (getAgents mgr))])
  | _ => (s, [])

/-- Model of the `close` handler: remove the client and its interest set. -/
def onClose (s : WSState) (ws : ClientId) : WSState :=
  { s with clients := s.clients.filter (fun c => c ≠ ws)
           subscriptions := mapDelete s.subscriptions ws }

/-- One input to the handler: a manager event, a connection-lifecycle
event, or an inbound client command. -/
inductive WSInput where
  | agentConnected (agent : Agent)
  | agentDisconnected (agentId : String)
  | activity (agentId content : String) (now : Nat)
  | statusChange (agentId : String) (status : AgentStatus)
  | chatMessage (agentId : String) (m : TranscriptMessage)
  | connect (ws : ClientId)
  | close (ws : ClientId)
  | clientMsg (ws : ClientId) (msg : ClientMessage)
deriving DecidableEq

/-- Dispatch one input to the corresponding handler, collecting the frames
it sends (tagged with the receiving client). -/
def stepInput (mgr : ManagerState) (s : WSState) : WSInput → WSState × List (ClientId × Frame)
  | .agentConnected a => onAgentConnected s a
  | .agentDisconnected aid => onAgentDisconnected s aid
  | .activity aid c now => onActivity s aid c now
  | .statusChange aid st => onStatusChange s aid st
  | .chatMessage aid m => onChatMessage s aid m
  | .connect ws =>
    let r := onConnection s ws mgr
    (r.1, r.2.map (fun f => (ws, f)))
  | .close ws => (onClose s ws, [])
  | .clientMsg ws m => handleMessage s mgr ws m

/-- Run the handler over an input sequence, concatenating all sends. -/
def runInputs (mgr : ManagerState) (s : WSState) :
    List WSInput → WSState × List (ClientId × Frame)
  | [] => (s, [])
  | i :: rest =>
    let first := stepInput mgr s i
    let next := runInputs mgr first.1 rest
    (next.1, first.2 ++ next.2)

/-- Whether an input is a subscribe or unsubscribe command. -/
def isSubCmd : WSInput → Bool
  | .clientMsg _ (.subscribe _) => true
  | .clientMsg _ (.unsubscribe _) => true
  | _ => false

/-- Observable equality of handler states: everything except the
subscription map (which nothing sent to clients depends on). -/
def obsEq (s t : WSState) : Prop :=
  s.clients = t.clients ∧ s.activityHistory = t.activityHistory ∧
    s.chatHistory = t.chatHistory

/-- Ingest a list of activity records (content, timestamp) for one agent. -/
def runActivities (s : WSState) (agentId : String) : List (String × Nat) → WSState
  | [] => s
  | e :: rest => runActivities (onActivity s agentId e.1 e.2).1 agentId rest

/-- Ingest a list of chat messages for one agent. -/
def runChats (s : WSState) (agentId : String) : List TranscriptMessage → WSState
  | [] => s
  | m :: rest => runChats (onChatMessage s agentId m).1 agentId rest

/-- Concrete run of 51 activity records, used to witness the bounded
history claim. -/
def entries51 : List (String × Nat) := (List.range 51).map (fun i => ("c", i))

/-- Concrete agent used to witness the queue claim. -/
def queueAgentA : Agent :=
  { id := "a", name := "Claude Code", type := .claudeCode,
    status := .active, connectedAt := 0 }

/-- Concrete one-agent manager used to witness the queue claim. -/
def queueManagerA : ManagerState := { agents := [("a", queueAgentA)] }

/-- Concrete agent used to witness the replay-order claim. -/
def replayAgent : Agent :=
  { id := "a1", name := "Claude Code", type := .claudeCode,
    status := .active, connectedAt := 0 }

/-- Concrete one-agent manager used to witness the replay-order claim. -/
def replayManager : ManagerState := { agents := [("a1", replayAgent)] }

/-- Concrete chat messages used to witness the replay-order claim. -/
def replayMsg1 : TranscriptMessage :=
  { role := "user", content := "question", timestamp := "t4", uuid := "u1" }

def replayMsg2 : TranscriptMessage :=
  { role := "assistant", content := "answer", timestamp := "t5", uuid := "u2" }

/-- Concrete chat message of a departed agent, used to witness the
disconnect frame-effect claim. -/
def goneMsg : TranscriptMessage :=
  { role := "assistant", content := "bye", timestamp := "t9", uuid := "u9" }

/-- Handler state holding only chat history of the departed agent `gone`. -/
def goneState : WSState := { chatHistory := [("gone", [goneMsg])] }

end Leash

namespace Leash

/-! ## Lemmas about the association-list map model -/

theorem mapGet_mapSet_self {κ α : Type} [DecidableEq κ] (m : List (κ × α)) (k : κ) (v : α) :
    mapGet (mapSet m k v) k = some v := by
  induction m with
  | nil => simp [mapGet, mapSet]
  | cons p rest ih =>
    obtain ⟨k', v'⟩ := p
    by_cases h : k' = k
    · simp [mapGet, mapSet, h]
    · simp [mapGet, mapSet, h, ih]

theorem mapGet_mapSet_ne {κ α : Type} [DecidableEq κ] (m : List (κ × α)) (k k' : κ) (v : α)
    (h : k ≠ k') : mapGet (mapSet m k v) k' = mapGet m k' := by
  induction m with
  | nil => simp [mapGet, mapSet, h]
  | cons p rest ih =>
    obtain ⟨k₀, v₀⟩ := p
    by_cases h0 : k₀ = k
    · simp [mapGet, mapSet, h0, h]
    · simp only [mapSet, h0, if_false, mapGet]
      by_cases h1 : k₀ = k'
      · simp [h1]
      · simp [h1, ih]

theorem mapGet_mapDelete_self {κ α : Type} [DecidableEq κ] (m : List (κ × α)) (k : κ) :
    mapGet (mapDelete m k) k = none := by
  induction m with
  | nil => simp [mapGet, mapDelete]
  | cons p rest ih =>
    obtain ⟨k₀, v₀⟩ := p
    by_cases h0 : k₀ = k
    · simp [mapDelete, h0, ih]
    · simp [mapDelete, mapGet, h0, ih]

theorem mapGet_mapDelete_ne {κ α : Type} [DecidableEq κ] (m : List (κ × α)) (k k' : κ)
    (h : k ≠ k') : mapGet (mapDelete m k) k' = mapGet m k' := by
  induction m with
  | nil => simp [mapDelete]
  | cons p rest ih =>
    obtain ⟨k₀, v₀⟩ := p
    by_cases h0 : k₀ = k
    · subst h0
      simp [mapDelete, mapGet, h, ih]
    · simp only [mapDelete, h0, if_false, mapGet]
      by_cases h1 : k₀ = k'
      · simp [h1]
      · simp [h1, ih]

theorem mapGet_some_mem {κ α : Type} [DecidableEq κ] (m : List (κ × α)) (k : κ) (v : α)
    (h : mapGet m k = some v) : (k, v) ∈ m := by
  induction m with
  | nil => simp [mapGet] at h
  | cons p rest ih =>
    obtain ⟨k₀, v₀⟩ := p
    by_cases h0 : k₀ = k
    · subst h0
      have hv : v₀ = v := by simpa [mapGet] using h
      subst hv
      exact List.mem_cons_self _ _
    · simp only [mapGet, h0, if_false] at h
      exact List.mem_cons_of_mem _ (ih h)

theorem mem_mapSet {κ α : Type} [DecidableEq κ] (m : List (κ × α)) (k : κ) (v : α) :
    ∀ e ∈ mapSet m k v, e.2 = v ∨ e ∈ m := by
  induction m with
  | nil => simp [mapSet]
  | cons p rest ih =>
    obtain ⟨k₀, v₀⟩ := p
    intro e he
    by_cases h0 : k₀ = k
    · simp only [mapSet, h0, if_pos rfl] at he
      rcases List.mem_cons.mp he with rfl | hmem
      · exact Or.inl rfl
      · exact Or.inr (List.mem_cons_of_mem _ hmem)
    · simp only [mapSet, h0, if_false] at he
      rcases List.mem_cons.mp he with rfl | hmem
      · exact Or.inr (List.mem_cons_self _ _)
      · rcases ih e hmem with hv | hmem2
        · exact Or.inl hv
        · exact Or.inr (List.mem_cons_of_mem _ hmem2)

/-! ## Watcher lemmas -/

theorem parseMessage_uuid (entry : JsonlEntry) (msg : TranscriptMessage)
    (h : parseMessage entry = some msg) : msg.uuid = entry.uuid := by
  unfold parseMessage at h
  cases hm : entry.message with
  | none => rw [hm] at h; cases h
  | some m =>
    rw [hm] at h
    simp only at h
    split at h
    · cases h
    · injection h with h2
      subst h2
      rfl

theorem processEntry_lastLineCount (st : WatcherState) (entry : JsonlEntry) :
    (processEntry st entry).1.lastLineCount = st.lastLineCount := by
  unfold processEntry
  by_cases h : entry.uuid ∈ st.seenUuids
  · simp [h]
  · by_cases h2 : entry.type ≠ "user" ∧ entry.type ≠ "assistant" <;> simp [h, h2]

/-- Case analysis of `processEntry`: a seen uuid leaves the state alone and
emits nothing; an unseen uuid is appended to the seen set, and a message is
emitted exactly when the record is a user/assistant record that parses. -/
theorem processEntry_cases (st : WatcherState) (entry : JsonlEntry) :
    (entry.uuid ∈ st.seenUuids ∧ processEntry st entry = (st, none)) ∨
    (entry.uuid ∉ st.seenUuids ∧
      (processEntry st entry).1.seenUuids = st.seenUuids ++ [entry.uuid] ∧
      ((processEntry st entry).2 = none ∨
        ((entry.type = "user" ∨ entry.type = "assistant") ∧
          (processEntry st entry).2 = parseMessage entry))) := by
  unfold processEntry
  by_cases h : entry.uuid ∈ st.seenUuids
  · exact Or.inl ⟨h, by simp [h]⟩
  · refine Or.inr ⟨h, ?_, ?_⟩
    · by_cases h2 : entry.type ≠ "user" ∧ entry.type ≠ "assistant" <;> simp [h, h2]
    · by_cases h2 : entry.type ≠ "user" ∧ entry.type ≠ "assistant"
      · exact Or.inl (by simp [h, h2])
      · refine Or.inr ⟨?_, by simp [h, h2]⟩
        rcases Classical.em (entry.type = "user") with hu | hu
        · exact Or.inl hu
        · exact Or.inr (by tauto)

/-- Main invariant of the record-processing loop: the seen set grows by a
duplicate-free batch `δ` of previously-unseen identities drawn from the
processed lines, the emitted uuids form a sublist of `δ`, and the line
counter is untouched. -/
theorem processLines_spec (ls : List (Option JsonlEntry)) (st : WatcherState) :
    ∃ δ : List String,
      (processLines st ls).1.seenUuids = st.seenUuids ++ δ ∧
      δ.Nodup ∧
      (∀ u ∈ δ, u ∉ st.seenUuids ∧ u ∈ uuidsOf ls) ∧
      ((processLines st ls).2.map TranscriptMessage.uuid).Sublist δ ∧
      (processLines st ls).1.lastLineCount = st.lastLineCount := by
  induction ls generalizing st with
  | nil => exact ⟨[], by simp [processLines]⟩
  | cons line rest ih =>
    cases line with
    | none =>
      obtain ⟨δ, h1, h2, h3, h4, h5⟩ := ih st
      exact ⟨δ, by simpa [processLines] using h1, h2,
        fun u hu => ⟨(h3 u hu).1, by simpa [uuidsOf] using (h3 u hu).2⟩,
        by simpa [processLines] using h4, by simpa [processLines] using h5⟩
    | some e =>
      rcases processEntry_cases st e with ⟨hseen, heq⟩ | ⟨hnew, hseen', hemit⟩
      · obtain ⟨δ, h1, h2, h3, h4, h5⟩ := ih st
        refine ⟨δ, ?_, h2, ?_, ?_, ?_⟩
        · simpa [processLines, heq] using h1
        · exact fun u hu => ⟨(h3 u hu).1, by
            have := (h3 u hu).2
            simp only [uuidsOf, List.filterMap_cons] at this ⊢
            simp [this]⟩
        · simpa [processLines, heq] using h4
        · simpa [processLines, heq] using h5
      · obtain ⟨δ, h1, h2, h3, h4, h5⟩ := ih (processEntry st e).1
        refine ⟨e.uuid :: δ, ?_, ?_, ?_, ?_, ?_⟩
        · simp only [processLines]
          rw [h1, hseen']
          simp
        · refine List.nodup_cons.mpr ⟨?_, h2⟩
          intro hmem
          have := (h3 e.uuid hmem).1
          rw [hseen'] at this
          simp at this
        · intro u hu
          rcases List.mem_cons.mp hu with rfl | hu'
          · refine ⟨hnew, ?_⟩
            simp [uuidsOf]
          · have h3u := h3 u hu'
            rw [hseen'] at h3u
            refine ⟨fun hc => h3u.1 (by simp [hc]), ?_⟩
            have := h3u.2
            simp only [uuidsOf, List.filterMap_cons] at this ⊢
            simp [this]
        · simp only [processLines]
          rcases hemit with hnone | ⟨_, hpm⟩
          · rw [hnone]
            simpa using List.Sublist.cons e.uuid h4
          · rw [hpm]
            cases hp : parseMessage e with
            | none => simpa using List.Sublist.cons e.uuid h4
            | some msg =>
              have : msg.uuid = e.uuid := parseMessage_uuid e msg hp
              simpa [this] using List.Sublist.cons₂ e.uuid h4
        · simp only [processLines]
          rw [h5, processEntry_lastLineCount]

/-- Every emitted message of the processing loop comes from a well-formed
user/assistant record of the processed lines whose identity was unseen when
the loop started. -/
theorem processLines_emits (ls : List (Option JsonlEntry)) (st : WatcherState) :
    ∀ m ∈ (processLines st ls).2, ∃ e, some e ∈ ls ∧ parseMessage e = some m ∧
      e.uuid ∉ st.seenUuids ∧ (e.type = "user" ∨ e.type = "assistant") := by
  induction ls generalizing st with
  | nil => simp [processLines]
  | cons line rest ih =>
    cases line with
    | none =>
      intro m hm
      obtain ⟨e, he, hpm, hu, ht⟩ := ih st m (by simpa [processLines] using hm)
      exact ⟨e, by simp [he], hpm, hu, ht⟩
    | some e0 =>
      intro m hm
      rcases processEntry_cases st e0 with ⟨hseen, heq⟩ | ⟨hnew, hseen', hemit⟩
      · obtain ⟨e, he, hpm, hu, ht⟩ := ih st m (by simpa [processLines, heq] using hm)
        exact ⟨e, by simp [he], hpm, hu, ht⟩
      · simp only [processLines, List.mem_append] at hm
        rcases hm with hhead | htail
        · rcases hemit with hnone | ⟨htype, hpm⟩
          · rw [hnone] at hhead
            simp at hhead
          · rw [hpm] at hhead
            cases hp : parseMessage e0 with
            | none => rw [hp] at hhead; simp at hhead
            | some msg =>
              rw [hp] at hhead
              simp only [Option.toList_some, List.mem_singleton] at hhead
              subst hhead
              exact ⟨e0, by simp, hp, hnew, htype⟩
        · obtain ⟨e, he, hpm, hu, ht⟩ := ih (processEntry st e0).1 m htail
          refine ⟨e, by simp [he], hpm, ?_, ht⟩
          intro hc
          exact hu (by rw [hseen']; simp [hc])

theorem uuidsOf_drop_subset (lines : List (Option JsonlEntry)) (k : Nat) :
    ∀ u ∈ uuidsOf (lines.drop k), u ∈ uuidsOf lines := by
  intro u hu
  have hsub : (lines.drop k).Sublist lines := List.drop_sublist k lines
  have : (uuidsOf (lines.drop k)).Sublist (uuidsOf lines) :=
    List.Sublist.map _ (hsub.filterMap id)
  exact this.subset hu

theorem readNewEntries_spec (st : WatcherState) (lines : List (Option JsonlEntry)) :
    ∃ δ : List String,
      (readNewEntries st lines).1.seenUuids = st.seenUuids ++ δ ∧
      δ.Nodup ∧
      (∀ u ∈ δ, u ∉ st.seenUuids ∧ u ∈ uuidsOf lines) ∧
      ((readNewEntries st lines).2.map TranscriptMessage.uuid).Sublist δ := by
  obtain ⟨δ, h1, h2, h3, h4, _⟩ := processLines_spec (lines.drop st.lastLineCount) st
  exact ⟨δ, by simpa [readNewEntries] using h1, h2,
    fun u hu => ⟨(h3 u hu).1, uuidsOf_drop_subset lines st.lastLineCount u (h3 u hu).2⟩,
    by simpa [readNewEntries] using h4⟩

theorem pollSequence_spec (contents : List (List (Option JsonlEntry))) (st : WatcherState) :
    ∃ δ : List String,
      (pollSequence st contents).1.seenUuids = st.seenUuids ++ δ ∧
      δ.Nodup ∧
      (∀ u ∈ δ, u ∉ st.seenUuids) ∧
      ((pollSequence st contents).2.map TranscriptMessage.uuid).Sublist δ := by
  induction contents generalizing st with
  | nil => exact ⟨[], by simp [pollSequence]⟩
  | cons c cs ih =>
    obtain ⟨δ₁, h11, h12, h13, h14⟩ := readNewEntries_spec st c
    obtain ⟨δ₂, h21, h22, h23, h24⟩ := ih (readNewEntries st c).1
    refine ⟨δ₁ ++ δ₂, ?_, ?_, ?_, ?_⟩
    · simp only [pollSequence]
      rw [h21, h11, List.append_assoc]
    · refine List.Nodup.append h12 h22 ?_
      intro u hu1 hu2
      have := h23 u hu2
      rw [h11] at this
      exact this (by simp [hu1])
    · intro u hu
      rcases List.mem_append.mp hu with hu1 | hu2
      · exact (h13 u hu1).1
      · have := h23 u hu2
        rw [h11] at this
        exact fun hc => this (by simp [hc])
    · simpa [pollSequence] using List.Sublist.append h14 h24

theorem pollMany_spec (lines : List (Option JsonlEntry)) (n : Nat) (st : WatcherState) :
    ∃ δ : List String,
      δ.Nodup ∧
      (∀ u ∈ δ, u ∉ st.seenUuids ∧ u ∈ uuidsOf lines) ∧
      ((pollMany st lines n).2.map TranscriptMessage.uuid).Sublist δ := by
  induction n generalizing st with
  | zero => exact ⟨[], by simp [pollMany]⟩
  | succ n ih =>
    obtain ⟨δ₁, h11, h12, h13, h14⟩ := readNewEntries_spec st lines
    obtain ⟨δ₂, h22, h23, h24⟩ := ih (readNewEntries st lines).1
    refine ⟨δ₁ ++ δ₂, ?_, ?_, ?_⟩
    · refine List.Nodup.append h12 h22 ?_
      intro u hu1 hu2
      have := (h23 u hu2).1
      rw [h11] at this
      exact this (by simp [hu1])
    · intro u hu
      rcases List.mem_append.mp hu with hu1 | hu2
      · exact h13 u hu1
      · have h1 := (h23 u hu2).1
        rw [h11] at h1
        exact ⟨fun hc => h1 (by simp [hc]), (h23 u hu2).2⟩
    · simpa [pollMany] using List.Sublist.append h14 h24

theorem nodup_subset_length_le_dedup (l l' : List String)
    (h1 : l.Nodup) (h2 : ∀ x ∈ l, x ∈ l') : l.length ≤ l'.dedup.length := by
  have hc1 : l.toFinset.card = l.length := List.toFinset_card_of_nodup h1
  have hc2 : l'.toFinset.card = l'.dedup.length := List.card_toFinset l'
  have hsub : l.toFinset ⊆ l'.toFinset := by
    intro x hx
    rw [List.mem_toFinset] at hx ⊢
    exact h2 x hx
  calc l.length = l.toFinset.card := hc1.symm
    _ ≤ l'.toFinset.card := Finset.card_le_card hsub
    _ = l'.dedup.length := hc2

/-! ## Claim C2 -/

/-- C2 (counterexample): the tailer does NOT emit a record with an unseen id
when it sits at a line position already read past.  First poll: one malformed
line (`none`), so `lastLineCount` becomes 1.  Second poll: the producer has
completed that line into a well-formed user record with the fresh id `u1`;
the claim says it is emitted, but the code processes only lines at index ≥ 1
and emits nothing, even though the record parses and its id is unseen. -/
theorem readNewEntries_offset_cex :
    (let e : JsonlEntry := { type := "user", uuid := "u1", timestamp := "t1",
                             message := some ⟨"user", .str "hi"⟩ }
     let st1 := (readNewEntries {} [none]).1
     (readNewEntries st1 [some e]).2 = [] ∧ parseMessage e ≠ none ∧
       "u1" ∉ st1.seenUuids ∧ st1.lastLineCount = 1) := by
  refine ⟨by decide, by decide, by decide, by decide⟩

/-- C2 (amended): each poll reads the full current content, but processes
only the lines at index ≥ `lastLineCount` (then sets `lastLineCount` to the
current line count).  Among those lines, every emitted message comes from a
well-formed user/assistant record whose uuid was unseen; malformed lines are
silently skipped and never fatal.  De-duplication is therefore by line
offset first and unique id second: if the log has not grown past
`lastLineCount`, nothing is emitted, unseen ids included. -/
theorem readNewEntries_line_offset_spec (st : WatcherState)
    (lines : List (Option JsonlEntry)) :
    (readNewEntries st lines).1.lastLineCount = lines.length ∧
    (readNewEntries st lines).2 = (processLines st (lines.drop st.lastLineCount)).2 ∧
    (∀ m ∈ (readNewEntries st lines).2, ∃ e, some e ∈ lines.drop st.lastLineCount ∧
      parseMessage e = some m ∧ e.uuid ∉ st.seenUuids ∧
      (e.type = "user" ∨ e.type = "assistant")) ∧
    (∀ rest, processLines st (none :: rest) = processLines st rest) ∧
    (lines.length ≤ st.lastLineCount → (readNewEntries st lines).2 = []) := by
  refine ⟨rfl, rfl, ?_, ?_, ?_⟩
  · intro m hm
    exact processLines_emits (lines.drop st.lastLineCount) st m
      (by simpa [readNewEntries] using hm)
  · intro rest
    simp [processLines]
  · intro hle
    simp [readNewEntries, List.drop_eq_nil_of_le hle, processLines]

/-! ## Claim C4 -/

/-- C4 (counterexample): a fixed transcript with N = 1 records and K = 1
distinct identities for which polling emits 0 messages, not K: the record's
type is `summary`, so it is marked seen but never parsed into a message. -/
theorem pollMany_not_exactly_K_cex :
    (let lines : List (Option JsonlEntry) :=
       [some { type := "summary", uuid := "u1", timestamp := "t" }]
     (pollMany {} lines 1).2.length = 0 ∧ (uuidsOf lines).dedup.length = 1) := by
  constructor <;> decide

/-- C4 (amended): over one tailer instance's lifetime — any sequence of
polled log contents — each record uuid is surfaced at most once (the emitted
uuids are duplicate-free); for a fixed transcript with K distinct record
identities, polling any number of times emits at most K messages in total,
never more (exactly K need not hold: records of non-message type, or
records parsing to no message, consume their identity without an emission). -/
theorem pollMany_dedup_at_most_K (lines : List (Option JsonlEntry)) (n : Nat)
    (contents : List (List (Option JsonlEntry))) :
    ((pollSequence {} contents).2.map TranscriptMessage.uuid).Nodup ∧
    ((pollMany {} lines n).2.map TranscriptMessage.uuid).Nodup ∧
    (∀ m ∈ (pollMany {} lines n).2, m.uuid ∈ uuidsOf lines) ∧
    (pollMany {} lines n).2.length ≤ (uuidsOf lines).dedup.length := by
  obtain ⟨δs, _, hs2, _, hs4⟩ := pollSequence_spec contents {}
  obtain ⟨δ, h2, h3, h4⟩ := pollMany_spec lines n {}
  refine ⟨hs4.nodup hs2, h4.nodup h2, ?_, ?_⟩
  · intro m hm
    have : m.uuid ∈ δ := h4.subset (List.mem_map_of_mem TranscriptMessage.uuid hm)
    exact (h3 m.uuid this).2
  · have hlen : (pollMany {} lines n).2.length =
        ((pollMany {} lines n).2.map TranscriptMessage.uuid).length :=
      (List.length_map _ _).symm
    rw [hlen]
    refine nodup_subset_length_le_dedup _ _ (h4.nodup h2) ?_
    intro u hu
    exact (h3 u (h4.subset hu)).2

/-! ## Claim C1 -/

/-- C1 (counterexample): `recordActivity("nonexistent", "x")` on a manager
with no registered agents is NOT free of observable effects: it creates an
activity-history entry for the unknown id, and a subsequent
`getActivityHistory("nonexistent")` returns `["x"]`, not the empty list. -/
theorem recordActivity_unknown_not_noop_cex :
    getActivityHistory (recordActivity {} "nonexistent" "x") "nonexistent" = ["x"] ∧
    mapGet (recordActivity {} "nonexistent" "x").activityHistory "nonexistent" =
      some ["x"] ∧
    getActivityHistory ({} : ManagerState) "nonexistent" = [] := by
  refine ⟨by decide, by decide, by decide⟩

/-- C1 (amended): for an unregistered `agentId`, `recordActivity` never
throws (it is a total function) and never touches the agent table — the id
stays unregistered — but it DOES create an activity-history entry for the
unknown id: the subsequent `getActivityHistory(agentId)` is non-empty and
ends with the recorded content. -/
theorem recordActivity_unknown_agent_records (s : ManagerState)
    (agentId content : String) (h : mapGet s.agents agentId = none) :
    (recordActivity s agentId content).agents = s.agents ∧
    mapGet (recordActivity s agentId content).agents agentId = none ∧
    getActivityHistory (recordActivity s agentId content) agentId ≠ [] ∧
    (getActivityHistory (recordActivity s agentId content) agentId).getLast? =
      some content := by
  refine ⟨rfl, h, ?_, ?_⟩
  · show ((mapGet (recordActivity s agentId content).activityHistory agentId).getD []) ≠ []
    simp only [recordActivity, mapGet_mapSet_self, Option.getD_some]
    split
    · rename_i hlen
      apply List.ne_nil_of_length_pos
      rw [List.length_tail]
      omega
    · simp
  · show ((mapGet (recordActivity s agentId content).activityHistory agentId).getD []).getLast? =
      some content
    simp only [recordActivity, mapGet_mapSet_self, Option.getD_some]
    split
    · rename_i hlen
      cases hist : (mapGet s.activityHistory agentId).getD [] with
      | nil => rw [hist] at hlen; simp at hlen
      | cons a rest =>
        simp [List.getLast?_concat]
    · exact List.getLast?_concat _

/-- C1 witness: the amended theorem applied at the empty manager state. -/
theorem recordActivity_unknown_agent_witness :
    mapGet ({} : ManagerState).agents "nonexistent" = none ∧
    ((recordActivity {} "nonexistent" "x").agents = ({} : ManagerState).agents ∧
      mapGet (recordActivity {} "nonexistent" "x").agents "nonexistent" = none ∧
      getActivityHistory (recordActivity {} "nonexistent" "x") "nonexistent" ≠ [] ∧
      (getActivityHistory (recordActivity {} "nonexistent" "x") "nonexistent").getLast? =
        some "x") :=
  ⟨by decide, recordActivity_unknown_agent_records {} "nonexistent" "x" (by decide)⟩

/-! ## Claim C8 -/

/-- For a known agent id and no supplied transcript path, `getOrCreateHooksAgent`
returns the stored agent, leaves the state untouched, and emits nothing. -/
theorem getOrCreateHooksAgent_known (s : ManagerState) (agentId : String) (a : Agent)
    (source : Option String) (now : Nat) (h : mapGet s.agents agentId = some a) :
    getOrCreateHooksAgent s agentId none source now = (a, s, []) := by
  simp [getOrCreateHooksAgent, h, optTruthy]

/-- C8 (confirmed): calling `getOrCreateHooksAgent` twice with the same
unknown id and no new metadata (no transcript path) yields the same agent
object both times, leaves the state of the first call untouched, and emits
the `agent_connected` event exactly once — on the first call only. -/
theorem getOrCreateHooksAgent_idempotent (s : ManagerState) (agentId : String)
    (source source2 : Option String) (now now2 : Nat)
    (h : mapGet s.agents agentId = none) :
    (getOrCreateHooksAgent
      (getOrCreateHooksAgent s agentId none source now).2.1
      agentId none source2 now2).1 =
        (getOrCreateHooksAgent s agentId none source now).1 ∧
    (getOrCreateHooksAgent
      (getOrCreateHooksAgent s agentId none source now).2.1
      agentId none source2 now2).2.1 =
        (getOrCreateHooksAgent s agentId none source now).2.1 ∧
    (getOrCreateHooksAgent s agentId none source now).2.2 =
      [.agentConnected (getOrCreateHooksAgent s agentId none source now).1] ∧
    (getOrCreateHooksAgent
      (getOrCreateHooksAgent s agentId none source now).2.1
      agentId none source2 now2).2.2 = [] := by
  have h1 : (getOrCreateHooksAgent s agentId none source now).2.1.agents =
      mapSet s.agents agentId (getOrCreateHooksAgent s agentId none source now).1 := by
    simp [getOrCreateHooksAgent, h, optTruthy]
  have h2 : mapGet (getOrCreateHooksAgent s agentId none source now).2.1.agents agentId =
      some (getOrCreateHooksAgent s agentId none source now).1 := by
    rw [h1]; exact mapGet_mapSet_self _ _ _
  rw [getOrCreateHooksAgent_known _ _ _ _ _ h2]
  refine ⟨rfl, rfl, ?_, rfl⟩
  simp [getOrCreateHooksAgent, h, optTruthy]

/-- C8 witness: the idempotence theorem applied at the empty manager state. -/
theorem getOrCreateHooksAgent_idempotent_witness :
    mapGet ({} : ManagerState).agents "a1" = none ∧
    ((getOrCreateHooksAgent
      (getOrCreateHooksAgent {} "a1" none none 0).2.1 "a1" none none 1).1 =
        (getOrCreateHooksAgent {} "a1" none none 0).1 ∧
    (getOrCreateHooksAgent
      (getOrCreateHooksAgent {} "a1" none none 0).2.1 "a1" none none 1).2.1 =
        (getOrCreateHooksAgent {} "a1" none none 0).2.1 ∧
    (getOrCreateHooksAgent {} "a1" none none 0).2.2 =
      [.agentConnected (getOrCreateHooksAgent {} "a1" none none 0).1] ∧
    (getOrCreateHooksAgent
      (getOrCreateHooksAgent {} "a1" none none 0).2.1 "a1" none none 1).2.2 = []) :=
  ⟨by decide, getOrCreateHooksAgent_idempotent {} "a1" none none 0 1 (by decide)⟩

/-! ## Claim C5 -/

/-- C5 (code bug): `createRoutes` registers TWO handlers for
`GET /agents/:id/chat`; Express dispatches to the first (the activity-based
one, part_008:123), so the transcript-replay handler (part_008:200,
documented "Get full chat history for an agent") is unreachable dead code.
At a registered agent with transcript path set, activity history `["hello"]`
and a transcript containing one user record `"hi"`, the dispatched route
returns the activity-derived pseudo chat (role guessed as assistant), not
the transcript replay. -/
theorem getChat_route_shadowing :
    (let agent : Agent := { id := "a1", name := "Claude Code", type := .claudeCode,
                            status := .active, connectedAt := 0, transcriptPath := some "p" }
     let s : ManagerState := { agents := [("a1", agent)],
                               activityHistory := [("a1", ["hello"])] }
     let fileLines : List (Option JsonlEntry) :=
       [some { type := "user", uuid := "u1", timestamp := "t1",
               message := some ⟨"user", .str "hi"⟩ }]
     dispatch "GET" "/agents/:id/chat" = some .activityChat ∧
     activityChatHandler s "a1" 1000000 =
       .ok [⟨"assistant", "hello", .iso 999000⟩] none ∧
     transcriptChatHandler s "a1" fileLines = .ok [⟨"user", "hi", .raw "t1"⟩] none ∧
     activityChatHandler s "a1" 1000000 ≠ transcriptChatHandler s "a1" fileLines) := by
  refine ⟨by decide, by decide, by decide, by decide⟩

/-! ## Claim C7 -/

/-- C7 (confirmed): the per-agent outbound queue is FIFO.  In general,
enqueueing a (non-empty) message appends it to the agent's queue and replies
with the new queue length, and dequeueing pops the oldest pending message or
reports empty.  Concretely, starting from an empty queue for agent `a`,
after `enqueue("a","x")` then `enqueue("a","y")`, successive dequeues return
`"x"`, then `"y"`, then empty. -/
theorem queue_fifo (s : ManagerState) (queues : Queues) (agent : Agent)
    (h : mapGet s.agents "a" = some agent) (hid : agent.id = "a")
    (h0 : (mapGet queues "a").getD [] = []) :
    (∀ (qs : Queues) (msg : String), msg ≠ "" →
      (postSendQueueMode s qs "a" msg).result =
        .queued (((mapGet qs "a").getD []).length + 1) ∧
      (mapGet (postSendQueueMode s qs "a" msg).queues "a").getD [] =
        ((mapGet qs "a").getD []) ++ [msg]) ∧
    (∀ qs : Queues, ((mapGet qs "a").getD [] = [] →
        (getQueueRoute qs "a").2 = ⟨false, none, 0⟩) ∧
      (∀ m rest, (mapGet qs "a").getD [] = m :: rest →
        (getQueueRoute qs "a").2 = ⟨true, some m, rest.length⟩ ∧
          (mapGet (getQueueRoute qs "a").1 "a").getD [] = rest)) ∧
    ((postSendQueueMode s queues "a" "x").result = .queued 1 ∧
     (postSendQueueMode (postSendQueueMode s queues "a" "x").manager
        (postSendQueueMode s queues "a" "x").queues "a" "y").result = .queued 2 ∧
     (let q2 := (postSendQueueMode (postSendQueueMode s queues "a" "x").manager
        (postSendQueueMode s queues "a" "x").queues "a" "y").queues
      let d1 := getQueueRoute q2 "a"
      let d2 := getQueueRoute d1.1 "a"
      let d3 := getQueueRoute d2.1 "a"
      d1.2.message = some "x" ∧ d2.2.message = some "y" ∧
        d3.2 = ⟨false, none, 0⟩)) := by
  refine ⟨?_, ?_, ?_, ?_, ?_⟩
  · intro qs msg hmsg
    constructor <;> simp [postSendQueueMode, h, hid, hmsg, mapGet_mapSet_self]
  · intro qs
    constructor
    · intro hq
      simp [getQueueRoute, hq]
    · intro m rest hq
      constructor <;> simp [getQueueRoute, hq, mapGet_mapSet_self]
  · simp [postSendQueueMode, h, hid, h0]
  · simp [postSendQueueMode, recordActivity, h, hid, h0, mapGet_mapSet_self]
  · simp only [postSendQueueMode, recordActivity, h, hid, h0]
    simp [getQueueRoute, h, hid, h0, mapGet_mapSet_self]

/-- C7 witness: the FIFO theorem applied at a one-agent manager and the
empty queue map. -/
theorem queue_fifo_witness :
    mapGet queueManagerA.agents "a" = some queueAgentA ∧
    queueAgentA.id = "a" ∧
    (mapGet ([] : Queues) "a").getD [] = [] ∧
    ((postSendQueueMode queueManagerA [] "a" "x").result = .queued 1 ∧
     (postSendQueueMode (postSendQueueMode queueManagerA [] "a" "x").manager
        (postSendQueueMode queueManagerA [] "a" "x").queues "a" "y").result = .queued 2 ∧
     (let q2 := (postSendQueueMode (postSendQueueMode queueManagerA [] "a" "x").manager
        (postSendQueueMode queueManagerA [] "a" "x").queues "a" "y").queues
      let d1 := getQueueRoute q2 "a"
      let d2 := getQueueRoute d1.1 "a"
      let d3 := getQueueRoute d2.1 "a"
      d1.2.message = some "x" ∧ d2.2.message = some "y" ∧
        d3.2 = ⟨false, none, 0⟩)) :=
  ⟨by decide, by decide, by decide,
    (queue_fifo queueManagerA [] queueAgentA (by decide) (by decide) (by decide)).2.2⟩

/-! ## Bounded-buffer lemmas -/

theorem cappedPush_length_le {α : Type} (l : List α) (x : α) (cap : Nat)
    (h : l.length ≤ cap) : (cappedPush l x cap).length ≤ cap := by
  unfold cappedPush
  split
  · rw [List.length_tail]
    simp
    omega
  · rename_i hlen
    simp at hlen
    simp
    omega

theorem foldl_cappedPush {α : Type} (cap : Nat) (hcap : 0 < cap) (xs l₀ : List α)
    (h : l₀.length ≤ cap) :
    xs.foldl (fun l x => cappedPush l x cap) l₀ =
      (l₀ ++ xs).drop ((l₀ ++ xs).length - cap) := by
  induction xs generalizing l₀ with
  | nil =>
    simp [Nat.sub_eq_zero_of_le h]
  | cons x xs ih =>
    rw [List.foldl_cons]
    by_cases hfull : (l₀ ++ [x]).length > cap
    · have hlen : l₀.length = cap := by
        simp at hfull
        omega
      cases l₀ with
      | nil =>
        simp at hlen
        omega
      | cons y l₀' =>
        have hstep : cappedPush (y :: l₀') x cap = l₀' ++ [x] := by
          unfold cappedPush
          rw [if_pos hfull]
          rfl
        rw [hstep, ih (l₀' ++ [x]) (by simp at hlen ⊢; omega)]
        have hidx1 : ((l₀' ++ [x]) ++ xs).length - cap = xs.length := by
          simp at hlen ⊢
          omega
        have hidx2 : ((y :: l₀') ++ x :: xs).length - cap = xs.length + 1 := by
          simp at hlen ⊢
          omega
        rw [hidx1, hidx2]
        have hflat : (l₀' ++ [x]) ++ xs = l₀' ++ x :: xs := by
          simp
        rw [hflat]
        rfl
    · have hstep : cappedPush l₀ x cap = l₀ ++ [x] := by
        unfold cappedPush
        rw [if_neg hfull]
      rw [hstep, ih (l₀ ++ [x]) (by simp at hfull ⊢; omega)]
      have hflat : (l₀ ++ [x]) ++ xs = l₀ ++ x :: xs := by
        simp
      rw [hflat]

theorem runActivities_get (agentId : String) (entries : List (String × Nat))
    (s : WSState) (hne : entries ≠ []) :
    mapGet (runActivities s agentId entries).activityHistory agentId =
      some (entries.foldl (fun l e => cappedPush l e MAX_HISTORY)
        ((mapGet s.activityHistory agentId).getD [])) := by
  induction entries generalizing s with
  | nil => exact absurd rfl hne
  | cons e rest ih =>
    cases rest with
    | nil =>
      simp [runActivities, onActivity, mapGet_mapSet_self]
    | cons e2 rest2 =>
      have hbase : (mapGet (onActivity s agentId e.1 e.2).1.activityHistory agentId).getD []
          = cappedPush ((mapGet s.activityHistory agentId).getD []) e MAX_HISTORY := by
        simp [onActivity, mapGet_mapSet_self]
      have hstep : runActivities s agentId (e :: e2 :: rest2) =
          runActivities (onActivity s agentId e.1 e.2).1 agentId (e2 :: rest2) := rfl
      rw [hstep, ih _ (by simp), List.foldl_cons, hbase]
      simp [List.foldl_cons]

/-! ## Claim C6 -/

/-- C6 (confirmed): ingesting M > 50 activity records for one agent (with no
prior stored history for it) leaves the relay's stored history for that
agent with exactly the 50 most recent entries, in chronological order (the
suffix of the ingested sequence); and ingesting any number of chat messages
never pushes any agent's stored chat history beyond 200 entries. -/
theorem relay_bounded_history (s : WSState) (agentId : String)
    (entries : List (String × Nat))
    (h0 : (mapGet s.activityHistory agentId).getD [] = [])
    (hM : entries.length > 50) :
    mapGet (runActivities s agentId entries).activityHistory agentId =
      some (entries.drop (entries.length - 50)) ∧
    (entries.drop (entries.length - 50)).length = 50 ∧
    (∀ (t : WSState) (aid : String) (msgs : List TranscriptMessage),
      (∀ e ∈ t.chatHistory, e.2.length ≤ 200) →
      ∀ e ∈ (runChats t aid msgs).chatHistory, e.2.length ≤ 200) := by
  refine ⟨?_, ?_, ?_⟩
  · rw [runActivities_get agentId entries s
      (by intro hc; rw [hc] at hM; simp at hM), h0]
    rw [foldl_cappedPush MAX_HISTORY (by decide) entries [] (by simp)]
    simp [MAX_HISTORY]
  · rw [List.length_drop]
    omega
  · intro t aid msgs
    induction msgs generalizing t with
    | nil => exact fun hbound => hbound
    | cons m rest ih =>
      intro hbound
      apply ih
      intro e he
      have hmem := mem_mapSet t.chatHistory aid
        (cappedPush ((mapGet t.chatHistory aid).getD []) m MAX_CHAT_HISTORY) e
        (by simpa [onChatMessage] using he)
      rcases hmem with hv | hmem2
      · rw [hv]
        have hle : ((mapGet t.chatHistory aid).getD []).length ≤ 200 := by
          cases hg : mapGet t.chatHistory aid with
          | none => simp
          | some v =>
            simpa using hbound (aid, v) (mapGet_some_mem _ _ _ hg)
        exact cappedPush_length_le _ _ _ hle
      · exact hbound e hmem2

/-- C6 witness: the bounded-history theorem applied to 51 concrete records
at the empty handler state. -/
theorem relay_bounded_history_witness :
    ((mapGet ({} : WSState).activityHistory "a").getD [] = [] ∧
      entries51.length > 50) ∧
    (mapGet (runActivities {} "a" entries51).activityHistory "a" =
        some (entries51.drop (entries51.length - 50)) ∧
      (entries51.drop (entries51.length - 50)).length = 50 ∧
      (∀ (t : WSState) (aid : String) (msgs : List TranscriptMessage),
        (∀ e ∈ t.chatHistory, e.2.length ≤ 200) →
        ∀ e ∈ (runChats t aid msgs).chatHistory, e.2.length ≤ 200)) :=
  ⟨⟨by decide, by decide⟩,
    relay_bounded_history {} "a" entries51 (by decide) (by decide)⟩

/-! ## Claim C3 -/

/-- C3 (confirmed): on a new connection the handler sends the agent list
first, then the full activity replay, then the full chat replay; concretely,
after agent `a1` has 3 activities and 2 chat messages (from the empty
handler state), a connecting client receives the agent list containing `a1`,
then the 3 activity frames in original order, then the 2 chat frames in
original order. -/
theorem onConnection_replay_order (mgr : ManagerState) (A : Agent) (w : ClientId)
    (c1 c2 c3 : String) (t1 t2 t3 : Nat) (m1 m2 : TranscriptMessage)
    (hA : getAgents mgr = [A]) :
    (∀ (t : WSState) (ws : ClientId) (mgr' : ManagerState),
      (onConnection t ws mgr').2 =
        Frame.agentsList (getAgents mgr') :: (activityFrames t ++ chatFrames t)) ∧
    (onConnection (runChats (runActivities {} "a1" [(c1, t1), (c2, t2), (c3, t3)])
        "a1" [m1, m2]) w mgr).2 =
      [Frame.agentsList [A],
       .activity "a1" c1 t1, .activity "a1" c2 t2, .activity "a1" c3 t3,
       chatFrame "a1" m1, chatFrame "a1" m2] := by
  refine ⟨fun t ws mgr' => rfl, ?_⟩
  simp [runActivities, runChats, onActivity, onChatMessage, onConnection,
        activityFrames, chatFrames, cappedPush, mapGet, mapSet, MAX_HISTORY,
        MAX_CHAT_HISTORY, hA]

/-- C3 witness: the replay-order theorem at a concrete one-agent manager
and concrete activities and messages. -/
theorem onConnection_replay_order_witness :
    getAgents replayManager = [replayAgent] ∧
    (onConnection (runChats (runActivities {} "a1" [("one", 1), ("two", 2), ("three", 3)])
        "a1" [replayMsg1, replayMsg2]) 9 replayManager).2 =
      [Frame.agentsList [replayAgent],
       .activity "a1" "one" 1, .activity "a1" "two" 2, .activity "a1" "three" 3,
       chatFrame "a1" replayMsg1, chatFrame "a1" replayMsg2] :=
  ⟨by decide,
    (onConnection_replay_order replayManager replayAgent 9 "one" "two" "three"
      1 2 3 replayMsg1 replayMsg2 (by decide)).2⟩

/-! ## Subscription-independence lemmas -/

theorem obsEq_refl (s : WSState) : obsEq s s := ⟨rfl, rfl, rfl⟩

theorem obsEq_trans {s t u : WSState} (h1 : obsEq s t) (h2 : obsEq t u) : obsEq s u :=
  ⟨h1.1.trans h2.1, h1.2.1.trans h2.2.1, h1.2.2.trans h2.2.2⟩

/-- Subscribe commands send nothing and change only the subscription map. -/
theorem handleMessage_subscribe_obs (s : WSState) (mgr : ManagerState)
    (ws : ClientId) (aid : String) :
    obsEq (handleMessage s mgr ws (.subscribe aid)).1 s ∧
      (handleMessage s mgr ws (.subscribe aid)).2 = [] := by
  unfold handleMessage
  cases mapGet s.subscriptions ws <;> exact ⟨⟨rfl, rfl, rfl⟩, rfl⟩

/-- Unsubscribe commands send nothing and change only the subscription map. -/
theorem handleMessage_unsubscribe_obs (s : WSState) (mgr : ManagerState)
    (ws : ClientId) (aid : String) :
    obsEq (handleMessage s mgr ws (.unsubscribe aid)).1 s ∧
      (handleMessage s mgr ws (.unsubscribe aid)).2 = [] := by
  unfold handleMessage
  cases mapGet s.subscriptions ws <;> exact ⟨⟨rfl, rfl, rfl⟩, rfl⟩

/-- Every handler's sends and its effect on the observable state (clients
and both history buffers) are independent of the subscription map. -/
theorem stepInput_obsEq (mgr : ManagerState) (i : WSInput) (s t : WSState)
    (h : obsEq s t) :
    (stepInput mgr s i).2 = (stepInput mgr t i).2 ∧
      obsEq (stepInput mgr s i).1 (stepInput mgr t i).1 := by
  obtain ⟨hc, ha, hch⟩ := h
  cases i with
  | agentConnected a =>
    exact ⟨by simp [stepInput, onAgentConnected, broadcast, hc], hc, ha, hch⟩
  | agentDisconnected aid =>
    exact ⟨by simp [stepInput, onAgentDisconnected, broadcast, hc],
      hc, by simp [stepInput, onAgentDisconnected, ha], hch⟩
  | activity aid c now =>
    exact ⟨by simp [stepInput, onActivity, broadcast, hc],
      hc, by simp [stepInput, onActivity, ha], hch⟩
  | statusChange aid st =>
    exact ⟨by simp [stepInput, onStatusChange, broadcast, hc], hc, ha, hch⟩
  | chatMessage aid m =>
    exact ⟨by simp [stepInput, onChatMessage, broadcast, hc],
      hc, ha, by simp [stepInput, onChatMessage, hch]⟩
  | connect ws =>
    refine ⟨?_, ?_, ha, hch⟩
    · simp [stepInput, onConnection, activityFrames, chatFrames, hc, ha, hch]
    · simp [stepInput, onConnection, hc]
  | close ws =>
    exact ⟨rfl, by simp [stepInput, onClose, hc], ha, hch⟩
  | clientMsg ws m =>
    cases m with
    | subscribe aid =>
      obtain ⟨hs1, hs2⟩ := handleMessage_subscribe_obs s mgr ws aid
      obtain ⟨ht1, ht2⟩ := handleMessage_subscribe_obs t mgr ws aid
      exact ⟨hs2.trans ht2.symm,
        obsEq_trans hs1 (obsEq_trans ⟨hc, ha, hch⟩
          ⟨ht1.1.symm, ht1.2.1.symm, ht1.2.2.symm⟩)⟩
    | unsubscribe aid =>
      obtain ⟨hs1, hs2⟩ := handleMessage_unsubscribe_obs s mgr ws aid
      obtain ⟨ht1, ht2⟩ := handleMessage_unsubscribe_obs t mgr ws aid
      exact ⟨hs2.trans ht2.symm,
        obsEq_trans hs1 (obsEq_trans ⟨hc, ha, hch⟩
          ⟨ht1.1.symm, ht1.2.1.symm, ht1.2.2.symm⟩)⟩
    | listAgents => exact ⟨rfl, hc, ha, hch⟩
    | sendMessage aid msg inst => exact ⟨rfl, hc, ha, hch⟩
    | interruptCmd aid => exact ⟨rfl, hc, ha, hch⟩

/-- A subscribe/unsubscribe input sends nothing and leaves the observable
state unchanged. -/
theorem stepInput_sub (mgr : ManagerState) (s : WSState) (i : WSInput)
    (h : isSubCmd i = true) :
    (stepInput mgr s i).2 = [] ∧ obsEq (stepInput mgr s i).1 s := by
  cases i with
  | clientMsg ws m =>
    cases m with
    | subscribe aid =>
      obtain ⟨h1, h2⟩ := handleMessage_subscribe_obs s mgr ws aid
      exact ⟨h2, h1⟩
    | unsubscribe aid =>
      obtain ⟨h1, h2⟩ := handleMessage_unsubscribe_obs s mgr ws aid
      exact ⟨h2, h1⟩
    | listAgents => simp [isSubCmd] at h
    | sendMessage aid msg inst => simp [isSubCmd] at h
    | interruptCmd aid => simp [isSubCmd] at h
  | agentConnected a => simp [isSubCmd] at h
  | agentDisconnected aid => simp [isSubCmd] at h
  | activity aid c now => simp [isSubCmd] at h
  | statusChange aid st => simp [isSubCmd] at h
  | chatMessage aid m => simp [isSubCmd] at h
  | connect ws => simp [isSubCmd] at h
  | close ws => simp [isSubCmd] at h

/-- Running any input sequence sends exactly the frames of the run with all
subscribe/unsubscribe commands erased (from any observably equal start). -/
theorem runInputs_obsEq (mgr : ManagerState) (inputs : List WSInput) (s t : WSState)
    (h : obsEq s t) :
    (runInputs mgr s inputs).2 =
      (runInputs mgr t (inputs.filter (fun i => !(isSubCmd i)))).2 ∧
    obsEq (runInputs mgr s inputs).1
      (runInputs mgr t (inputs.filter (fun i => !(isSubCmd i)))).1 := by
  induction inputs generalizing s t with
  | nil => exact ⟨rfl, h⟩
  | cons i rest ih =>
    by_cases hsub : isSubCmd i
    · obtain ⟨hout, hobs⟩ := stepInput_sub mgr s i hsub
      obtain ⟨ih1, ih2⟩ := ih (stepInput mgr s i).1 t (obsEq_trans hobs h)
      constructor
      · simp only [runInputs, List.filter_cons, hsub]
        simp [hout, ih1]
      · simpa [runInputs, List.filter_cons, hsub] using ih2
    · obtain ⟨hout, hobs⟩ := stepInput_obsEq mgr i s t h
      obtain ⟨ih1, ih2⟩ := ih (stepInput mgr s i).1 (stepInput mgr t i).1 hobs
      constructor
      · simp only [runInputs, List.filter_cons, hsub]
        simp [hout, ih1, hsub]
      · simpa [runInputs, List.filter_cons, hsub] using ih2

/-! ## Claim C9 -/

/-- C9 (confirmed): broadcast delivery is independent of subscription state.
Two runs from the same start that differ only in the subscribe/unsubscribe
commands clients issued (their other inputs, in order, coincide) send the
same frames to the same clients and end with the same connected-client set;
subscribe/unsubscribe mutate only the (unused) interest sets. -/
theorem broadcast_subscription_independent (mgr : ManagerState) (s : WSState)
    (inputs1 inputs2 : List WSInput)
    (h : inputs1.filter (fun i => !(isSubCmd i)) =
         inputs2.filter (fun i => !(isSubCmd i))) :
    (runInputs mgr s inputs1).2 = (runInputs mgr s inputs2).2 ∧
    (runInputs mgr s inputs1).1.clients = (runInputs mgr s inputs2).1.clients := by
  have h1 := runInputs_obsEq mgr inputs1 s s (obsEq_refl s)
  have h2 := runInputs_obsEq mgr inputs2 s s (obsEq_refl s)
  constructor
  · rw [h1.1, h2.1, h]
  · have hc1 := h1.2.1
    have hc2 := h2.2.1
    rw [hc1, hc2, h]

/-- C9 witness: a run with a subscribe command and the same run without it
deliver the identical frames. -/
theorem broadcast_subscription_independent_witness :
    (([WSInput.clientMsg 0 (.subscribe "b"), .activity "b" "x" 5] :
        List WSInput).filter (fun i => !(isSubCmd i)) =
      ([.activity "b" "x" 5] : List WSInput).filter (fun i => !(isSubCmd i))) ∧
    ((runInputs {} { clients := [0, 1] }
        [.clientMsg 0 (.subscribe "b"), .activity "b" "x" 5]).2 =
      (runInputs {} { clients := [0, 1] } [.activity "b" "x" 5]).2 ∧
     (runInputs {} { clients := [0, 1] }
        [.clientMsg 0 (.subscribe "b"), .activity "b" "x" 5]).1.clients =
      (runInputs {} { clients := [0, 1] } [.activity "b" "x" 5]).1.clients) :=
  ⟨by decide,
    broadcast_subscription_independent {} { clients := [0, 1] }
      [.clientMsg 0 (.subscribe "b"), .activity "b" "x" 5]
      [.activity "b" "x" 5] (by decide)⟩

/-! ## Claim C10 -/

/-- C10 (confirmed): on `agent_disconnected` the relay deletes only that
agent's activity history and keeps its chat history; a client connecting
afterwards is sent the agents list first (which, the manager having removed
the agent, does not contain it) and still receives the `chat_message`
replay frames for the departed agent. -/
theorem disconnect_purges_activity_keeps_chat (mgr : ManagerState) (s : WSState)
    (agentId : String) (msgs : List TranscriptMessage) (w : ClientId)
    (hchat : mapGet s.chatHistory agentId = some msgs)
    (hmgr : ∀ a ∈ getAgents mgr, a.id ≠ agentId) :
    mapGet (onAgentDisconnected s agentId).1.activityHistory agentId = none ∧
    mapGet (onAgentDisconnected s agentId).1.chatHistory agentId = some msgs ∧
    (onConnection (onAgentDisconnected s agentId).1 w mgr).2.head? =
      some (Frame.agentsList (getAgents mgr)) ∧
    (∀ a ∈ getAgents mgr, a.id ≠ agentId) ∧
    (∀ m ∈ msgs, chatFrame agentId m ∈
      (onConnection (onAgentDisconnected s agentId).1 w mgr).2) := by
  refine ⟨mapGet_mapDelete_self _ _, hchat, rfl, hmgr, ?_⟩
  intro m hm
  have hmem : (agentId, msgs) ∈ s.chatHistory := mapGet_some_mem _ _ _ hchat
  have h1 : chatFrame agentId m ∈ chatFrames (onAgentDisconnected s agentId).1 := by
    simp only [chatFrames, List.mem_flatten]
    refine ⟨msgs.map (chatFrame agentId), ?_, List.mem_map_of_mem _ hm⟩
    exact List.mem_map_of_mem _ hmem
  exact List.mem_cons_of_mem _ (List.mem_append_right _ h1)

/-- C10 witness: the theorem applied at a handler state holding one chat
message of the departed agent `gone` and the empty manager. -/
theorem disconnect_purges_activity_keeps_chat_witness :
    (mapGet goneState.chatHistory "gone" = some [goneMsg] ∧
      (∀ a ∈ getAgents {}, a.id ≠ "gone")) ∧
    (mapGet (onAgentDisconnected goneState "gone").1.activityHistory "gone" = none ∧
     mapGet (onAgentDisconnected goneState "gone").1.chatHistory "gone" =
       some [goneMsg] ∧
     (onConnection (onAgentDisconnected goneState "gone").1 7 {}).2.head? =
       some (Frame.agentsList (getAgents {})) ∧
     (∀ a ∈ getAgents {}, a.id ≠ "gone") ∧
     (∀ m ∈ [goneMsg], chatFrame "gone" m ∈
       (onConnection (onAgentDisconnected goneState "gone").1 7 {}).2)) :=
  ⟨⟨by decide, by decide⟩,
    disconnect_purges_activity_keeps_chat {} goneState "gone" [goneMsg] 7
      (by decide) (by decide)⟩

end Leash
